import Mathlib

/-!
Shallow embedding of `snorkel/contrib/wclstm/wclstm.py` (class `WCLSTM`),
together with the collaborator pieces it uses from elsewhere in the
repository (`SymbolTable`, `reshape_marginals`, candidate token access),
which are modelled from the specification where their source is not
available.  The file is Python-2 faithful: `map(f, xs)` is eager, so
`map(table.get, xs)` really inserts every element of `xs`.
-/

instance {ε α : Type} [DecidableEq ε] [DecidableEq α] :
    DecidableEq (Except ε α) := fun a b =>
  match a, b with
  | .ok x, .ok y =>
      if h : x = y then isTrue (by rw [h]) else isFalse (by simp [h])
  | .error x, .error y =>
      if h : x = y then isTrue (by rw [h]) else isFalse (by simp [h])
  | .ok _, .error _ => isFalse (by simp)
  | .error _, .ok _ => isFalse (by simp)

namespace WCLSTM

/-- Modelled from the spec: `SymbolTable` (token-to-dense-integer-ID map
from `snorkel.learning.utils`, whose source is not under `src/`).  Per the
spec: IDs 0 and 1 are reserved (padding, unknown), so fresh IDs start at 2;
`get` inserts if absent and returns the ID; `lookup` returns the existing
ID or the unknown ID 1 without mutating; `lookup_strict` requires an
existing entry; `s` is the size counter (next free ID). -/
structure SymbolTable where
  d : List (String × Nat)
  s : Nat
  deriving Repr, DecidableEq

/-- The unknown-token reserved ID (`WCLSTM.unknown_symbol = 1`). -/
def unknown_symbol : Nat := 1

namespace SymbolTable

/-- A fresh symbol table: empty map, next ID 2 (IDs 0/1 reserved). -/
def empty : SymbolTable := ⟨[], 2⟩

/-- Find the ID of a token, if present. -/
def find (t : SymbolTable) (w : String) : Option Nat :=
  (t.d.find? (fun p => p.1 = w)).map Prod.snd

/-- `get`: insert-or-return (mutating form, returns the updated table). -/
def get (t : SymbolTable) (w : String) : SymbolTable :=
  match t.find w with
  | some _ => t
  | none => ⟨(w, t.s) :: t.d, t.s + 1⟩

/-- `get` with the assigned ID also returned. -/
def getId (t : SymbolTable) (w : String) : Nat :=
  match t.find w with
  | some i => i
  | none => t.s

/-- Python-2 `map(table.get, ws)`: eagerly insert every token. -/
def mapGet (t : SymbolTable) (ws : List String) : SymbolTable :=
  ws.foldl get t

/-- `lookup`: frozen-mode read, unknown tokens map to the reserved ID 1. -/
def lookup (t : SymbolTable) (w : String) : Nat :=
  (t.find w).getD unknown_symbol

/-- `lookup_strict`: read that fails (`KeyError`) on an absent token. -/
def lookup_strict (t : SymbolTable) (w : String) : Option Nat :=
  t.find w

end SymbolTable

/-- The word-table padding markers inserted on every initialization path
(`['~~[[1', '1]]~~', '~~[[2', '2]]~~']`). -/
def wordPads : List String := ["~~[[1", "1]]~~", "~~[[2", "2]]~~"]

/-- `WCLSTM.char_marker = ['<', '>']`. -/
def char_marker : List String := ["<", ">"]

/-- A candidate, as this model consumes it.  Modelled from the spec:
`candidate_to_tokens` (from the wclstm `utils` module, not under `src/`)
exposes the candidate's full parent-sentence token sequence, so a
candidate is represented by that token list directly. -/
def Cand := List String

/-- `candidate_to_tokens(candidate)`: the parent-sentence token list. -/
def candidate_to_tokens (c : Cand) : List String := c

/-- A plain Python dict used only for its key set (`word_dict_all`,
`char_dict_all` are built with `dict.fromkeys`/`update`).  Keys are kept
unique in insertion order. -/
def keysUpdate (d : List String) (ks : List String) : List String :=
  ks.foldl (fun acc k => if acc.contains k then acc else acc ++ [k]) d

/-- Python `sep.join(ws)` (structural recursion, so that it evaluates
by reduction). -/
def pyJoin (sep : String) : List String → String
  | [] => ""
  | [w] => w
  | w :: ws => w ++ sep ++ pyJoin sep ws

/-- Python 2 `list(' '.join(words))`: the characters of the words joined
by single spaces, each as a one-character string. -/
def joinChars (words : List String) : List String :=
  (pyJoin " " words).toList.map (fun c => String.mk [c])

/-- The dimensions/paths/flags of the model configuration that the
embedded operations read (`_init_kwargs` attributes). -/
structure Config where
  load_emb : Bool := false
  word_emb_dim : Nat := 300
  char_emb_dim : Nat := 300
  word_emb_path : String := ""
  char_emb_path : String := ""
  replace : List (String × String) := []
  char_gram : Nat := 3
  max_sentence_length : Nat := 100
  deriving Repr, DecidableEq

/-- An embedding matrix (`np.ndarray` of shape `rows × dim`): a row count
plus a row-indexed family of rows. -/
structure Mat where
  rows : Nat
  row : Nat → List ℚ

/-- Row assignment `emb[i] = v`. -/
def Mat.setRow (m : Mat) (i : Nat) (v : List ℚ) : Mat :=
  ⟨m.rows, fun j => if j = i then v else m.row j⟩

/-- The mutable attribute state of a `WCLSTM` instance.  `Option` fields
model Python attributes that may not exist yet (`hasattr` checks /
`AttributeError` on access).  `W`/`C` stand for the word-level and
char-level network objects (`WordRNN`/`CharRNN`), opaque to this model. -/
structure ModelState (W C : Type) where
  word_dict : Option SymbolTable := none
  char_dict : Option SymbolTable := none
  word_dict_all : Option (List String) := none
  char_dict_all : Option (List String) := none
  word_emb : Mat := ⟨0, fun _ => []⟩
  char_emb : Mat := ⟨0, fun _ => []⟩
  word_model : Option W := none
  char_model : Option C := none
  cfg : Config := {}

/-- Reading a possibly-missing attribute (`AttributeError` on `none`). -/
def attrGet {α : Type} (name : String) : Option α → Except String α
  | some a => .ok a
  | none => .error ("AttributeError: " ++ name)

/-- The symbol-table initialization prologue of `_preprocess_data`
(wclstm.py lines 34-42): create-and-seed `word_dict` / `char_dict` when
the attributes do not exist yet. -/
def preprocessInit {W C : Type} (m : ModelState W C) : ModelState W C :=
  let m := match m.word_dict with
    | none => { m with word_dict := some (SymbolTable.empty.mapGet wordPads) }
    | some _ => m
  match m.char_dict with
  | none => { m with char_dict := some (SymbolTable.empty.mapGet char_marker) }
  | some _ => m

/-- One training candidate in the training-vocabulary loop of
`create_dict` (wclstm.py lines 99-102): insert its words into
`word_dict` (when `word`) and the characters of the space-joined words
into `char_dict` (when `char`). -/
def trainVocabStep {W C : Type} (word char : Bool) (m : ModelState W C)
    (candidate : Cand) : Except String (ModelState W C) := do
  let words := candidate_to_tokens candidate
  let m ← if word then do
      let wd ← attrGet "word_dict" m.word_dict
      pure { m with word_dict := some (wd.mapGet words) }
    else pure m
  if char then do
    let cd ← attrGet "char_dict" m.char_dict
    pure { m with char_dict := some (cd.mapGet (joinChars words)) }
  else pure m

/-- The training-vocabulary loop of `create_dict` (lines 98-102). -/
def trainVocabPass {W C : Type} (word char : Bool) (splits_train : List Cand)
    (m : ModelState W C) : Except String (ModelState W C) :=
  splits_train.foldlM (trainVocabStep word char) m

/-- One dev/test candidate in the pre-trained-vocabulary loop of
`create_dict` (wclstm.py lines 106-111).  Faithful to the source: BOTH
updates — of `word_dict_all` and of `char_dict_all` — are guarded by
`if word:`; the `char` flag is never consulted here. -/
def devTestStep {W C : Type} (word : Bool) (m : ModelState W C)
    (candidate : Cand) : Except String (ModelState W C) := do
  let words := candidate_to_tokens candidate
  let m ← if word then do
      let da ← attrGet "word_dict_all" m.word_dict_all
      pure { m with word_dict_all := some (keysUpdate da words) }
    else pure m
  if word then do
    let ca ← attrGet "char_dict_all" m.char_dict_all
    pure { m with char_dict_all := some (keysUpdate ca (joinChars words)) }
  else pure m

/-- The dev/test-vocabulary loop of `create_dict` (lines 104-111):
`for candset in splits["test"]: for candidate in candset: ...`. -/
def devTestVocabPass {W C : Type} (word : Bool) (splits_test : List (List Cand))
    (m : ModelState W C) : Except String (ModelState W C) :=
  splits_test.foldlM (fun (m : ModelState W C) candset =>
    candset.foldlM (devTestStep word) m) m

/-- `create_dict(self, splits, word, char)` (wclstm.py lines 82-114).
`splits_train` is `splits["train"]`, `splits_test` is `splits["test"]`
(a list of candidate sets).  Faithful point: the char branch seeds the
markers by calling `.get` on the *plain dict* `char_dict_all` — a
non-mutating read, so neither `char_dict` nor `char_dict_all` receives
the markers. -/
def create_dict {W C : Type} (m : ModelState W C) (splits_train : List Cand)
    (splits_test : List (List Cand)) (word char : Bool) :
    Except String (ModelState W C) := do
  let m := if word then
      { m with word_dict := some (SymbolTable.empty.mapGet wordPads),
               word_dict_all := some [] }
    else m
  let m := if char then
      -- `map(self.char_dict_all.get, self.char_marker)`: `dict.get` on a
      -- plain dict only reads; no marker is inserted anywhere.
      { m with char_dict := some SymbolTable.empty,
               char_dict_all := some [] }
    else m
  let m ← trainVocabPass word char splits_train m
  devTestVocabPass word splits_test m

/-- Python slice `s[i:i+k]` on a string (by characters). -/
def pySlice (s : String) (i k : Nat) : String :=
  String.mk ((s.toList.drop i).take k)

/-- The char-n-gram slicing of one marked-sentence token `w`
(wclstm.py lines 65-68): wrap as `'<' + w + '>'`, then take every slice
`word[i:i+char_gram]` for `i in range(len(word) - char_gram + 1)`.
Python's `range` of a negative bound is empty, which the truncated
subtraction `len + 1 - char_gram` reproduces. -/
def wordCharSeq (w : String) (char_gram : Nat) : List String :=
  let word := "<" ++ w ++ ">"
  (List.range (word.length + 1 - char_gram)).map (fun i => pySlice word i char_gram)

/-- The char-table processing of one token in extend mode
(`map(self.char_dict.get, word_char_seq)` with `g = get`): returns the
assigned IDs and the updated table. -/
def charIdsExtend (t : SymbolTable) (w : String) (char_gram : Nat) :
    List Nat × SymbolTable :=
  (wordCharSeq w char_gram).foldl
    (fun (acc : List Nat × SymbolTable) g =>
      (acc.1 ++ [acc.2.getId g], acc.2.get g))
    ([], t)

/-- `_check_max_sentence_length(self, ends, max_len)` (wclstm.py lines
73-80): `mx = max_len or self.max_sentence_length` (Python `or`, so a
falsy `max_len` — `None` or `0` — falls back to the configured length);
a warning `(i, end)` is emitted for every `end >= mx`.  The function only
collects warnings; it never raises and filters nothing. -/
def checkMaxSentenceLength (ends : List Nat) (max_len : Option Nat)
    (max_sentence_length : Nat) : List (Nat × Nat) :=
  let mx := match max_len with
    | none => max_sentence_length
    | some v => if v = 0 then max_sentence_length else v
  (ends.enum).foldl (fun acc p => if p.2 ≥ mx then acc ++ [p] else acc) []

/-- The `mx` resolution of `_check_max_sentence_length`. -/
def resolveMx (max_len : Option Nat) (max_sentence_length : Nat) : Nat :=
  match max_len with
  | none => max_sentence_length
  | some v => if v = 0 then max_sentence_length else v

/-- Python `s.split(sep)` for a one-character separator (structural
recursion over the character list, so that it evaluates by reduction). -/
def splitOnCharAux (sep : Char) : List Char → List Char → List String
  | [], cur => [String.mk cur.reverse]
  | c :: rest, cur =>
    if c = sep then String.mk cur.reverse :: splitOnCharAux sep rest []
    else splitOnCharAux sep rest (c :: cur)

/-- Python `s.split(sep)` for a one-character separator: `"" ↦ [""]`,
`"a b" ↦ ["a", "b"]`, `"a  b" ↦ ["a", "", "b"]`. -/
def splitOnChar (sep : Char) (s : String) : List String :=
  splitOnCharAux sep s.toList []

/-- Python `s.strip()`: remove leading and trailing whitespace. -/
def pyStrip (s : String) : String :=
  String.mk (((s.toList.dropWhile Char.isWhitespace).reverse.dropWhile
    Char.isWhitespace).reverse)

/-- `path.split(".")[-1]`, used for the fastText format sniff. -/
def lastDotPart (p : String) : String := (splitOnChar '.' p).getLastD ""

/-- Applying the user `replace` table:
`for key in replace.keys(): w = w.replace(key, replace[key])`. -/
def applyReplace (rs : List (String × String)) (w : String) : String :=
  rs.foldl (fun w p => w.replace p.1 p.2) w

/-- One embedding-file line, split as the source splits it:
`_.strip().split(' ')`. -/
def splitLine (l : String) : List String := splitOnChar ' ' (pyStrip l)

/-- One line of the dictionary-growing scan of `load_dict` (wclstm.py
lines 137-147 for words, 161-169 for chars): assert the token count is
`dim + 1` (else the whole load fails with the dimension-mismatch
assertion), apply the `replace` table to the token, and collect it when
the `*_dict_all` attribute exists and contains it. -/
def collectStep (dim : Nat) (rs : List (String × String))
    (dict_all : Option (List String)) (errMsg : String)
    (acc : List String) (l : String) : Except String (List String) := do
  let line := splitLine l
  if line.length = dim + 1 then
    let w := applyReplace rs (line.headD "")
    match dict_all with
    | some da => if da.contains w then pure (acc ++ [w]) else pure acc
    | none => pure acc
  else .error errMsg

/-- The dictionary-growing scan over one embedding file in `load_dict`. -/
def collectPass (dim : Nat) (rs : List (String × String))
    (dict_all : Option (List String)) (lines : List String)
    (errMsg : String) : Except String (List String) :=
  lines.foldlM (collectStep dim rs dict_all errMsg) []

/-- The word-embedding-file lines actually scanned: `fmt == "fastText"
and i == 0` skips the first (header) line exactly when the path ends in
`.vec`. -/
def effWordLines (path : String) (wordLines : List String) : List String :=
  if lastDotPart path = "vec" then wordLines.drop 1 else wordLines

/-- `load_dict(self)` (wclstm.py lines 116-172), with the two embedding
files given as line lists.  Creates missing tables, re-seeds the padding
markers, then runs the word scan (skipping a fastText header line) and
the char scan, inserting each collected token with `get`. -/
def load_dict {W C : Type} (m : ModelState W C)
    (wordLines charLines : List String) : Except String (ModelState W C) := do
  let wd := m.word_dict.getD SymbolTable.empty
  let cd := m.char_dict.getD SymbolTable.empty
  let wd := wd.mapGet wordPads
  let cd := cd.mapGet char_marker
  let wl := effWordLines m.cfg.word_emb_path wordLines
  let lw ← collectPass m.cfg.word_emb_dim m.cfg.replace m.word_dict_all wl
    "Word embedding dimension does not match!"
  let wd := wd.mapGet lw
  let lc ← collectPass m.cfg.char_emb_dim m.cfg.replace m.char_dict_all charLines
    "Char embedding dimension does not match!"
  let cd := cd.mapGet lc
  pure { m with word_dict := some wd, char_dict := some cd }

/-- `line[-dim:]` parsed as floats (`pyFloat` standing for Python
`float()` on a numeric token). -/
def parseVec (pyFloat : String → ℚ) (dim : Nat) (line : List String) : List ℚ :=
  (line.drop (line.length - dim)).map pyFloat

/-- One line of the row-overwriting scan of `load_embeddings` (wclstm.py
lines 190-196 for words, 203-209 for chars, which are the same loop at
different dims/tables): assert the token count, apply `replace`, and
when `lookup` is not the unknown ID overwrite row `lookup_strict(token)`
with the parsed vector. -/
def embOverwriteStep (pyFloat : String → ℚ) (dim : Nat)
    (rs : List (String × String)) (tbl : SymbolTable) (errMsg : String)
    (emb : Mat) (l : String) : Except String Mat := do
  let line := splitLine l
  if line.length = dim + 1 then
    let w := applyReplace rs (line.headD "")
    if tbl.lookup w ≠ unknown_symbol then
      match tbl.lookup_strict w with
      | some r => pure (emb.setRow r (parseVec pyFloat dim line))
      | none => .error "KeyError"
    else pure emb
  else .error errMsg

/-- The row-overwriting scan over one embedding file in
`load_embeddings`. -/
def embOverwritePass (pyFloat : String → ℚ) (dim : Nat)
    (rs : List (String × String)) (tbl : SymbolTable) (lines : List String)
    (emb : Mat) (errMsg : String) : Except String Mat :=
  lines.foldlM (embOverwriteStep pyFloat dim rs tbl errMsg) emb

/-- `load_embeddings(self)` (wclstm.py lines 174-210): run `load_dict`
to completion, allocate the two random matrices sized to the final
symbol-table sizes (`randW`/`randC` standing for the
`np.random.uniform(-0.1, 0.1, ...)` draws), then run both overwrite
scans. -/
def load_embeddings {W C : Type} (pyFloat : String → ℚ)
    (randW randC : Nat → List ℚ) (m : ModelState W C)
    (wordLines charLines : List String) : Except String (ModelState W C) := do
  let m ← load_dict m wordLines charLines
  let wd := m.word_dict.getD SymbolTable.empty
  let cd := m.char_dict.getD SymbolTable.empty
  let wordEmb0 : Mat := ⟨wd.s, randW⟩
  let charEmb0 : Mat := ⟨cd.s, randC⟩
  let wl := effWordLines m.cfg.word_emb_path wordLines
  let wordEmb ← embOverwritePass pyFloat m.cfg.word_emb_dim m.cfg.replace wd wl
    wordEmb0 "Word embedding dimension does not match!"
  let charEmb ← embOverwritePass pyFloat m.cfg.char_emb_dim m.cfg.replace cd
    charLines charEmb0 "Char embedding dimension does not match!"
  pure { m with word_emb := wordEmb, char_emb := charEmb }

/-- A target-marginals array: either 1-dimensional (`[n]`) or
2-dimensional (`[n, k]`, rectangular). -/
inductive Marg where
  | vec (v : List ℚ)
  | mat (rows : List (List ℚ))
  deriving Repr, DecidableEq

/-- `Y_train.shape[1] if len(Y_train.shape) > 1 else 2` (line 358). -/
def Marg.cardinality : Marg → Nat
  | .vec _ => 2
  | .mat rows => (rows.headD []).length

/-- Modelled from the spec: `reshape_marginals` (from
`snorkel.learning.utils`, not under `src/`) puts targets in default
format — a 2-column matrix becomes the 1-dimensional positive-class
marginal vector, everything else is already in default shape. -/
def reshape_marginals : Marg → Marg
  | .vec v => .vec v
  | .mat rows =>
      if (rows.headD []).length = 2 then .vec (rows.map (fun r => r.getD 1 0))
      else .mat rows

/-- The rows of a marginals array (`sum(axis=1)` view; a 1-dimensional
array is only ever summed when cardinality > 2, which cannot happen). -/
def Marg.rowsOf : Marg → List (List ℚ)
  | .vec v => v.map (fun x => [x])
  | .mat rows => rows

/-- All entries of a marginals array (`np.all(Y_train >= 0)` view). -/
def Marg.entries : Marg → List ℚ
  | .vec v => v
  | .mat rows => rows.flatten

/-- The `1e-10` tolerance of the row-stochastic check. -/
def rowTol : ℚ := 1 / 10 ^ 10

/-- The input-validation prologue of `train` (wclstm.py lines 358-369),
run before any model construction: cardinality equality check, then
`reshape_marginals`, then `self.cardinality > 2 and not
np.all(Y_train.sum(axis=1) - 1 < 1e-10)` (note: one-sided), then
`not np.all(Y_train >= 0)` (note: lower bound only). -/
def trainValidate (modelCard : Nat) (Y : Marg) : Except String Unit :=
  let cardinality := Y.cardinality
  if cardinality ≠ modelCard then
    .error "Training marginals cardinality does not match model cardinality."
  else
    let Yr := reshape_marginals Y
    if modelCard > 2 ∧
        ¬ ((Yr.rowsOf).all (fun r => decide (r.sum - 1 < rowTol)) = true) then
      .error "Y_train must be row-stochastic (rows sum to 1)."
    else if ¬ ((Yr.entries).all (fun x => decide (0 ≤ x)) = true) then
      .error "Y_train must have values in [0,1]."
    else .ok ()

/-- The `model_dicts.pkl` artifact: both symbol tables, plus both
embedding matrices when `load_emb` (wclstm.py lines 531-539). -/
structure DictsFile where
  char_dict : SymbolTable
  word_dict : SymbolTable
  embs : Option (Mat × Mat)

/-- The checkpoint directory `save_dir/model_name/` as written by `save`:
`model_kwargs.pkl`, `model_dicts.pkl`, and the two network-weight files.
`none` models an absent file. -/
structure Checkpoint (W C : Type) where
  model_kwargs_file : Option Config := none
  model_dicts_file : Option DictsFile := none
  word_model_file : Option W := none
  char_model_file : Option C := none

/-- `save(self, ..., only_param)` (wclstm.py lines 517-545): when not
`only_param`, write `model_kwargs.pkl` and `model_dicts.pkl` (with the
embedding matrices exactly when `load_emb`); always write the two
network-weight files.  Attribute presence is assumed (`getD`): in every
source flow the saved attributes exist by the time `save` runs. -/
def save {W C : Type} [Inhabited W] [Inhabited C] (m : ModelState W C)
    (fs : Checkpoint W C) (only_param : Bool) : Checkpoint W C :=
  let fs := if only_param then fs else
    { fs with
      model_kwargs_file := some m.cfg,
      model_dicts_file := some
        ⟨m.char_dict.getD SymbolTable.empty, m.word_dict.getD SymbolTable.empty,
         if m.cfg.load_emb then some (m.char_emb, m.word_emb) else none⟩ }
  { fs with word_model_file := some (m.word_model.getD default),
            char_model_file := some (m.char_model.getD default) }

/-- `load(self, ..., only_param)` (wclstm.py lines 547-577): when not
`only_param`, read `model_kwargs.pkl` (re-running `_init_kwargs`, here:
installing the configuration) and `model_dicts.pkl`; always read the two
network-weight files; a missing file is a propagated error. -/
def load {W C : Type} (m : ModelState W C) (fs : Checkpoint W C)
    (only_param : Bool) : Except String (ModelState W C) := do
  let m ← if only_param then pure m else
    match fs.model_kwargs_file with
    | none => .error "IOError: model_kwargs.pkl not found"
    | some kw =>
      -- `self._init_kwargs(**model_kwargs)`
      let m := { m with cfg := kw }
      match fs.model_dicts_file with
      | none => .error "IOError: model_dicts.pkl not found"
      | some d =>
        if kw.load_emb then
          match d.embs with
          | some p =>
              pure { m with char_dict := some d.char_dict
                            word_dict := some d.word_dict
                            char_emb := p.1
                            word_emb := p.2 }
          | none => .error "KeyError: char_emb"
        else
          pure { m with char_dict := some d.char_dict
                        word_dict := some d.word_dict }
  match fs.word_model_file, fs.char_model_file with
  | some w, some c => pure { m with word_model := some w, char_model := some c }
  | _, _ => .error "IOError: model file not found"

/-- The parameters of the epoch loop of `train` (lines 336-337, 442). -/
structure LoopCfg where
  n_epochs : Nat
  print_freq : Nat
  patience : Nat
  dev_ckpt : Bool
  dev_ckpt_delay : ℚ
  hasDev : Bool

/-- The mutable state of the epoch loop (lines 439-440 plus the model
attributes and the checkpoint directory). -/
structure LoopState (W C : Type) where
  model : ModelState W C
  fs : Checkpoint W C
  dev_score_opt : ℚ
  last_epoch_opt : Option Nat

/-- One epoch of gradient updates (the inner batch loop, lines 443-448):
an abstract transformer of the two network objects. -/
def stepModel {W C : Type} (step : W × C → W × C) (m : ModelState W C) :
    ModelState W C :=
  match m.word_model, m.char_model with
  | some a, some b =>
      let p := step (a, b)
      { m with word_model := some p.1, char_model := some p.2 }
  | _, _ => m

/-- The body of one iteration of the epoch loop (wclstm.py lines
442-465): train one epoch; on a check epoch (`verbose and ((idx+1) %
print_freq == 0 or idx+1 == n_epochs)`), score the dev set, record an
improvement (saving a parameter-only checkpoint, line 460) when
`X_dev is not None and dev_ckpt and idx > dev_ckpt_delay * n_epochs and
score > dev_score_opt`, then break when `last_epoch_opt is not None and
idx - last_epoch_opt > patience and (dev_ckpt and idx > dev_ckpt_delay *
n_epochs)`.  `score idx` abstracts `self.score(X_dev, Y_dev, ...)` at
epoch `idx`. -/
def epochBody {W C : Type} [Inhabited W] [Inhabited C] (cfg : LoopCfg)
    (score : Nat → ℚ) (step : W × C → W × C) (st : LoopState W C)
    (idx : Nat) : LoopState W C × Bool :=
  let m := stepModel step st.model
  let verbose := cfg.print_freq > 0
  if verbose ∧ ((idx + 1) % cfg.print_freq = 0 ∨ idx + 1 = cfg.n_epochs) then
    let s := score idx
    let st :=
      if cfg.hasDev ∧ cfg.dev_ckpt = true ∧
          (idx : ℚ) > cfg.dev_ckpt_delay * (cfg.n_epochs : ℚ) ∧
          s > st.dev_score_opt then
        { model := m, fs := save m st.fs true, dev_score_opt := s,
          last_epoch_opt := some idx }
      else { st with model := m }
    let brk := match st.last_epoch_opt with
      | some e => if idx - e > cfg.patience ∧ cfg.dev_ckpt = true ∧
          (idx : ℚ) > cfg.dev_ckpt_delay * (cfg.n_epochs : ℚ) then true else false
      | none => false
    (st, brk)
  else ({ st with model := m }, false)

/-- Run the epoch loop over a list of epoch indices, stopping at the
first `break`; returns the final state and the break epoch, if any. -/
def runFrom {W C : Type} [Inhabited W] [Inhabited C] (cfg : LoopCfg)
    (score : Nat → ℚ) (step : W × C → W × C) :
    List Nat → LoopState W C → LoopState W C × Option Nat
  | [], st => (st, none)
  | idx :: rest, st =>
    let r := epochBody cfg score step st idx
    if r.2 then (r.1, some idx) else runFrom cfg score step rest r.1

/-- The whole epoch loop of `train` (`for idx in range(self.n_epochs)`).  -/
def trainCore {W C : Type} [Inhabited W] [Inhabited C] (cfg : LoopCfg)
    (score : Nat → ℚ) (step : W × C → W × C) (m0 : ModelState W C)
    (fs0 : Checkpoint W C) : LoopState W C × Option Nat :=
  runFrom cfg score step (List.range cfg.n_epochs)
    ⟨m0, fs0, 0, none⟩

/-- The terminal action of `train` (wclstm.py lines 471-473): `if
dev_ckpt and X_dev is not None and verbose and dev_score_opt > 0:
self.load(..., only_param=True)`. -/
def trainFinish {W C : Type} (cfg : LoopCfg) (r : LoopState W C × Option Nat) :
    Except String (LoopState W C) :=
  let st := r.1
  if cfg.dev_ckpt = true ∧ cfg.hasDev ∧ cfg.print_freq > 0 ∧
      st.dev_score_opt > 0 then
    (load st.model st.fs true).map (fun m => { st with model := m })
  else .ok st

/-- `train` from the top of the epoch loop to the terminal reload. -/
def trainRun {W C : Type} [Inhabited W] [Inhabited C] (cfg : LoopCfg)
    (score : Nat → ℚ) (step : W × C → W × C) (m0 : ModelState W C)
    (fs0 : Checkpoint W C) : Except String (LoopState W C) :=
  trainFinish cfg (trainCore cfg score step m0 fs0)

/-! ## Helper lemmas -/

@[simp] lemma except_pure_eq {α : Type} (a : α) :
    (pure a : Except String α) = .ok a := rfl

@[simp] lemma except_bind_ok {α β : Type} (a : α) (f : α → Except String β) :
    ((Except.ok a : Except String α) >>= f) = f a := rfl

@[simp] lemma except_bind_error {α β : Type} (e : String)
    (f : α → Except String β) :
    ((Except.error e : Except String α) >>= f) = .error e := rfl

@[simp] lemma except_map_ok {α β : Type} (a : α) (f : α → β) :
    Except.map f (Except.ok a : Except String α) = .ok (f a) := rfl

@[simp] lemma except_map_error {α β : Type} (e : String) (f : α → β) :
    Except.map f (Except.error e : Except String α) = .error e := rfl

lemma foldl_if_append_eq_filter {α : Type} (P : α → Prop) [DecidablePred P] :
    ∀ (l acc : List α),
      l.foldl (fun a x => if P x then a ++ [x] else a) acc
        = acc ++ l.filter (fun x => decide (P x)) := by
  intro l
  induction l with
  | nil => simp
  | cons x l ih =>
    intro acc
    simp only [List.foldl_cons, List.filter_cons]
    by_cases h : P x
    · simp [h, ih]
    · simp [h, ih]

lemma charIds_foldl_len (l : List String) :
    ∀ (t : SymbolTable) (acc : List Nat),
      ((l.foldl (fun (acc : List Nat × SymbolTable) g =>
          (acc.1 ++ [acc.2.getId g], acc.2.get g)) (acc, t)).1).length
        = acc.length + l.length := by
  induction l with
  | nil => intro t acc; simp
  | cons g l ih =>
    intro t acc
    simp only [List.foldl_cons]
    rw [ih]
    simp
    omega

/-- Well-formedness of a symbol table built through `get`: every ID is
below the size counter, and both IDs and tokens are duplicate-free. -/
def SymbolTable.WF (t : SymbolTable) : Prop :=
  (∀ p ∈ t.d, p.2 < t.s) ∧ (t.d.map Prod.snd).Nodup ∧
    (t.d.map Prod.fst).Nodup

lemma WF_empty : SymbolTable.empty.WF := by
  simp [SymbolTable.empty, SymbolTable.WF]

lemma WF_get (t : SymbolTable) (w : String) (h : t.WF) :
    (t.get w).WF := by
  obtain ⟨hb, hs, hf⟩ := h
  rw [SymbolTable.get]
  cases hfind : t.find w with
  | some i => exact ⟨hb, hs, hf⟩
  | none =>
    show SymbolTable.WF ⟨(w, t.s) :: t.d, t.s + 1⟩
    have hnotin : ∀ p ∈ t.d, p.1 ≠ w := by
      intro p hp
      rw [SymbolTable.find, Option.map_eq_none'] at hfind
      have := List.find?_eq_none.mp hfind p hp
      simpa using this
    refine ⟨?_, ?_, ?_⟩
    · intro p hp
      rcases List.mem_cons.mp hp with h | h
      · rw [h]; exact Nat.lt_succ_self _
      · exact Nat.lt_trans (hb p h) (Nat.lt_succ_self _)
    · rw [List.map_cons, List.nodup_cons]
      refine ⟨?_, hs⟩
      intro hmem
      obtain ⟨p, hp, hps⟩ := List.mem_map.mp hmem
      exact absurd hps (Nat.ne_of_lt (hb p hp))
    · rw [List.map_cons, List.nodup_cons]
      refine ⟨?_, hf⟩
      intro hmem
      obtain ⟨p, hp, hps⟩ := List.mem_map.mp hmem
      exact hnotin p hp hps

lemma WF_mapGet (ws : List String) : ∀ (t : SymbolTable), t.WF →
    (t.mapGet ws).WF := by
  induction ws with
  | nil => intro t h; exact h
  | cons w ws ih =>
    intro t h
    rw [SymbolTable.mapGet, List.foldl_cons]
    exact ih _ (WF_get t w h)

lemma strict_mem (t : SymbolTable) {w : String} {r : Nat}
    (h : t.lookup_strict w = some r) : (w, r) ∈ t.d := by
  rw [SymbolTable.lookup_strict, SymbolTable.find] at h
  obtain ⟨p, hp, hpr⟩ := Option.map_eq_some'.mp h
  have hmem := List.mem_of_find?_eq_some hp
  have hkey := List.find?_some hp
  rw [decide_eq_true_eq] at hkey
  have hpw : p = (w, r) := Prod.ext hkey hpr
  rwa [hpw] at hmem

lemma strict_inj (t : SymbolTable) (h : t.WF) {w1 w2 : String} {r : Nat}
    (h1 : t.lookup_strict w1 = some r) (h2 : t.lookup_strict w2 = some r) :
    w1 = w2 := by
  have hm1 := strict_mem t h1
  have hm2 := strict_mem t h2
  have heq : ((w1, r) : String × Nat) = (w2, r) :=
    List.inj_on_of_nodup_map h.2.1 hm1 hm2 rfl
  exact congrArg Prod.fst heq

lemma lookup_ne_unknown_strict (t : SymbolTable) {w : String}
    (h : t.lookup w ≠ unknown_symbol) :
    ∃ r, t.lookup_strict w = some r ∧ t.lookup w = r := by
  rw [SymbolTable.lookup] at h
  rw [SymbolTable.lookup, SymbolTable.lookup_strict]
  cases hf : t.find w with
  | none => rw [hf] at h; simp [unknown_symbol] at h
  | some r => exact ⟨r, rfl, rfl⟩

/-- The (replaced) token of an embedding-file line. -/
def tokOf (rs : List (String × String)) (l : String) : String :=
  applyReplace rs ((splitLine l).headD "")

lemma collectStep_good (dim : Nat) (rs : List (String × String))
    (da : Option (List String)) (msg : String) (acc : List String)
    (l : String) (hl : (splitLine l).length = dim + 1) :
    ∃ acc', collectStep dim rs da msg acc l = .ok acc' := by
  rw [collectStep]
  rw [if_pos hl]
  cases da with
  | none => exact ⟨acc, rfl⟩
  | some d =>
    set w := applyReplace rs ((splitLine l).headD "") with hw
    by_cases hc : d.contains w = true
    · refine ⟨acc ++ [w], ?_⟩
      show (if d.contains w = true then pure (acc ++ [w]) else pure acc :
        Except String (List String)) = _
      rw [if_pos hc]
      rfl
    · refine ⟨acc, ?_⟩
      show (if d.contains w = true then pure (acc ++ [w]) else pure acc :
        Except String (List String)) = _
      rw [if_neg hc]
      rfl

lemma collect_fold_ok (dim : Nat) (rs : List (String × String))
    (da : Option (List String)) (msg : String) :
    ∀ (lines : List String) (acc : List String),
      (∀ l ∈ lines, (splitLine l).length = dim + 1) →
      ∃ ws, lines.foldlM (collectStep dim rs da msg) acc = .ok ws := by
  intro lines
  induction lines with
  | nil => intro acc _; exact ⟨acc, rfl⟩
  | cons l ls ih =>
    intro acc h
    obtain ⟨acc', hacc⟩ := collectStep_good dim rs da msg acc l
      (h l (List.mem_cons_self l ls))
    obtain ⟨ws, hws⟩ := ih acc' (fun x hx => h x (List.mem_cons_of_mem l hx))
    exact ⟨ws, by rw [List.foldlM_cons, hacc]; simpa using hws⟩

lemma collect_fold_err (dim : Nat) (rs : List (String × String))
    (da : Option (List String)) (msg : String) :
    ∀ (lines : List String) (acc : List String),
      (∃ l ∈ lines, (splitLine l).length ≠ dim + 1) →
      lines.foldlM (collectStep dim rs da msg) acc = .error msg := by
  intro lines
  induction lines with
  | nil => intro acc h; simp at h
  | cons l ls ih =>
    intro acc h
    by_cases hl : (splitLine l).length = dim + 1
    · obtain ⟨acc', hacc⟩ := collectStep_good dim rs da msg acc l hl
      rw [List.foldlM_cons, hacc]
      have hex : ∃ x ∈ ls, (splitLine x).length ≠ dim + 1 := by
        obtain ⟨x, hx, hxl⟩ := h
        rcases List.mem_cons.mp hx with rfl | hx'
        · exact absurd hl hxl
        · exact ⟨x, hx', hxl⟩
      simpa using ih acc' hex
    · rw [List.foldlM_cons]
      have hstep : collectStep dim rs da msg acc l = .error msg := by
        rw [collectStep]
        simp [hl]
      rw [hstep]
      simp

lemma embStep_hit (pyFloat : String → ℚ) (dim : Nat)
    (rs : List (String × String)) (tbl : SymbolTable) (msg : String)
    (emb : Mat) (l : String) {r : Nat}
    (hl : (splitLine l).length = dim + 1)
    (hg : tbl.lookup (tokOf rs l) ≠ unknown_symbol)
    (hstrict : tbl.lookup_strict (tokOf rs l) = some r) :
    embOverwriteStep pyFloat dim rs tbl msg emb l
      = .ok (emb.setRow r (parseVec pyFloat dim (splitLine l))) := by
  rw [embOverwriteStep]
  rw [if_pos hl]
  show (if tbl.lookup (tokOf rs l) ≠ unknown_symbol then
      match tbl.lookup_strict (tokOf rs l) with
      | some r => pure (emb.setRow r (parseVec pyFloat dim (splitLine l)))
      | none => .error "KeyError"
    else pure emb : Except String Mat) = _
  rw [if_pos hg, hstrict]
  rfl

lemma embStep_miss (pyFloat : String → ℚ) (dim : Nat)
    (rs : List (String × String)) (tbl : SymbolTable) (msg : String)
    (emb : Mat) (l : String)
    (hl : (splitLine l).length = dim + 1)
    (hg : ¬ tbl.lookup (tokOf rs l) ≠ unknown_symbol) :
    embOverwriteStep pyFloat dim rs tbl msg emb l = .ok emb := by
  rw [embOverwriteStep]
  rw [if_pos hl]
  show (if tbl.lookup (tokOf rs l) ≠ unknown_symbol then
      match tbl.lookup_strict (tokOf rs l) with
      | some r => pure (emb.setRow r (parseVec pyFloat dim (splitLine l)))
      | none => .error "KeyError"
    else pure emb : Except String Mat) = _
  rw [if_neg hg]
  rfl

lemma embStep_bad (pyFloat : String → ℚ) (dim : Nat)
    (rs : List (String × String)) (tbl : SymbolTable) (msg : String)
    (emb : Mat) (l : String)
    (hl : ¬ (splitLine l).length = dim + 1) :
    embOverwriteStep pyFloat dim rs tbl msg emb l = .error msg := by
  rw [embOverwriteStep]
  rw [if_neg hl]

lemma embStep_good (pyFloat : String → ℚ) (dim : Nat)
    (rs : List (String × String)) (tbl : SymbolTable) (msg : String)
    (emb : Mat) (l : String)
    (hl : (splitLine l).length = dim + 1) :
    ∃ emb', embOverwriteStep pyFloat dim rs tbl msg emb l = .ok emb' ∧
      emb'.rows = emb.rows := by
  by_cases hg : tbl.lookup (tokOf rs l) ≠ unknown_symbol
  · obtain ⟨r, hstrict, _⟩ := lookup_ne_unknown_strict tbl hg
    exact ⟨_, embStep_hit pyFloat dim rs tbl msg emb l hl hg hstrict, rfl⟩
  · exact ⟨emb, embStep_miss pyFloat dim rs tbl msg emb l hl hg, rfl⟩

lemma emb_fold_ok (pyFloat : String → ℚ) (dim : Nat)
    (rs : List (String × String)) (tbl : SymbolTable) (msg : String) :
    ∀ (lines : List String) (emb : Mat),
      (∀ l ∈ lines, (splitLine l).length = dim + 1) →
      ∃ embF, lines.foldlM (embOverwriteStep pyFloat dim rs tbl msg) emb
        = .ok embF := by
  intro lines
  induction lines with
  | nil => intro emb _; exact ⟨emb, rfl⟩
  | cons l ls ih =>
    intro emb h
    obtain ⟨emb1, hstep, _⟩ := embStep_good pyFloat dim rs tbl msg emb l
      (h l (List.mem_cons_self l ls))
    obtain ⟨embF, hF⟩ := ih emb1 (fun x hx => h x (List.mem_cons_of_mem l hx))
    exact ⟨embF, by rw [List.foldlM_cons, hstep]; simpa using hF⟩

lemma emb_fold_err (pyFloat : String → ℚ) (dim : Nat)
    (rs : List (String × String)) (tbl : SymbolTable) (msg : String) :
    ∀ (lines : List String) (emb : Mat),
      (∃ l ∈ lines, (splitLine l).length ≠ dim + 1) →
      lines.foldlM (embOverwriteStep pyFloat dim rs tbl msg) emb
        = .error msg := by
  intro lines
  induction lines with
  | nil => intro emb h; simp at h
  | cons l ls ih =>
    intro emb h
    by_cases hl : (splitLine l).length = dim + 1
    · obtain ⟨emb1, hstep, _⟩ := embStep_good pyFloat dim rs tbl msg emb l hl
      rw [List.foldlM_cons, hstep]
      have hex : ∃ x ∈ ls, (splitLine x).length ≠ dim + 1 := by
        obtain ⟨x, hx, hxl⟩ := h
        rcases List.mem_cons.mp hx with rfl | hx'
        · exact absurd hl hxl
        · exact ⟨x, hx', hxl⟩
      simpa using ih emb1 hex
    · rw [List.foldlM_cons, embStep_bad pyFloat dim rs tbl msg emb l hl]
      simp

lemma emb_fold_rows (pyFloat : String → ℚ) (dim : Nat)
    (rs : List (String × String)) (tbl : SymbolTable) (msg : String)
    (hWF : tbl.WF) :
    ∀ (lines : List String) (emb : Mat),
      (∀ l ∈ lines, (splitLine l).length = dim + 1) →
      (lines.map (tokOf rs)).Nodup →
      ∃ embF, lines.foldlM (embOverwriteStep pyFloat dim rs tbl msg) emb
          = .ok embF ∧
        embF.rows = emb.rows ∧
        (∀ l ∈ lines, tbl.lookup (tokOf rs l) ≠ unknown_symbol →
          ∃ r, tbl.lookup_strict (tokOf rs l) = some r ∧
            embF.row r = parseVec pyFloat dim (splitLine l)) ∧
        (∀ r, (∀ l ∈ lines, tbl.lookup_strict (tokOf rs l) ≠ some r) →
          embF.row r = emb.row r) := by
  intro lines
  induction lines with
  | nil =>
    intro emb _ _
    exact ⟨emb, rfl, rfl, by simp, fun r _ => rfl⟩
  | cons l ls ih =>
    intro emb h hnd
    have hlhead := h l (List.mem_cons_self l ls)
    have htail : ∀ x ∈ ls, (splitLine x).length = dim + 1 :=
      fun x hx => h x (List.mem_cons_of_mem l hx)
    have hnd2 : (tokOf rs l :: ls.map (tokOf rs)).Nodup := by
      rw [List.map_cons] at hnd
      exact hnd
    have hndc := List.nodup_cons.mp hnd2
    by_cases hg : tbl.lookup (tokOf rs l) ≠ unknown_symbol
    · obtain ⟨r0, hstrict, _⟩ := lookup_ne_unknown_strict tbl hg
      have hstep := embStep_hit pyFloat dim rs tbl msg emb l hlhead hg hstrict
      obtain ⟨embF, hrun, hrows, hhit, hmiss⟩ :=
        ih (emb.setRow r0 (parseVec pyFloat dim (splitLine l))) htail hndc.2
      refine ⟨embF, ?_, ?_, ?_, ?_⟩
      · rw [List.foldlM_cons, hstep]
        simpa using hrun
      · exact hrows
      · intro x hx hgx
        rcases List.mem_cons.mp hx with rfl | hx'
        · refine ⟨r0, hstrict, ?_⟩
          rw [hmiss r0 ?_]
          · simp [Mat.setRow]
          · intro x' hx' heq
            have hxeq := strict_inj tbl hWF heq hstrict
            exact hndc.1 (hxeq ▸ List.mem_map_of_mem (tokOf rs) hx')
        · exact hhit x hx' hgx
      · intro r hr
        rw [hmiss r (fun x' hx' => hr x' (List.mem_cons_of_mem l hx'))]
        have hr0 : r ≠ r0 :=
          fun hrr => hr l (List.mem_cons_self l ls) (hrr ▸ hstrict)
        simp [Mat.setRow, hr0]
    · have hstep := embStep_miss pyFloat dim rs tbl msg emb l hlhead hg
      obtain ⟨embF, hrun, hrows, hhit, hmiss⟩ := ih emb htail hndc.2
      refine ⟨embF, ?_, hrows, ?_, ?_⟩
      · rw [List.foldlM_cons, hstep]
        simpa using hrun
      · intro x hx hgx
        rcases List.mem_cons.mp hx with rfl | hx'
        · exact absurd hgx hg
        · exact hhit x hx' hgx
      · intro r hr
        exact hmiss r (fun x' hx' => hr x' (List.mem_cons_of_mem l hx'))

lemma load_dict_ok {W C : Type} (m : ModelState W C) (wl cl : List String)
    (hw : ∀ l ∈ effWordLines m.cfg.word_emb_path wl,
      (splitLine l).length = m.cfg.word_emb_dim + 1)
    (hc : ∀ l ∈ cl, (splitLine l).length = m.cfg.char_emb_dim + 1) :
    ∃ lw lc, load_dict m wl cl = .ok { m with
      word_dict := some
        (((m.word_dict.getD SymbolTable.empty).mapGet wordPads).mapGet lw),
      char_dict := some
        (((m.char_dict.getD SymbolTable.empty).mapGet char_marker).mapGet lc) } := by
  obtain ⟨lw, hlw⟩ := collect_fold_ok m.cfg.word_emb_dim m.cfg.replace
    m.word_dict_all "Word embedding dimension does not match!"
    (effWordLines m.cfg.word_emb_path wl) [] hw
  obtain ⟨lc, hlc⟩ := collect_fold_ok m.cfg.char_emb_dim m.cfg.replace
    m.char_dict_all "Char embedding dimension does not match!" cl [] hc
  have hlw' : collectPass m.cfg.word_emb_dim m.cfg.replace m.word_dict_all
      (effWordLines m.cfg.word_emb_path wl)
      "Word embedding dimension does not match!" = .ok lw := hlw
  have hlc' : collectPass m.cfg.char_emb_dim m.cfg.replace m.char_dict_all cl
      "Char embedding dimension does not match!" = .ok lc := hlc
  refine ⟨lw, lc, ?_⟩
  rw [load_dict]
  rw [hlw']
  simp only [except_bind_ok]
  rw [hlc']
  simp only [except_bind_ok]
  rfl

/-! ## Claim theorems -/

/-- C9: `_check_max_sentence_length` emits exactly one (non-fatal)
warning per position whose end offset meets or exceeds the resolved max
length, and no warning for positions below it; being a total function
returning only the warning list, it never raises and never filters the
candidates. -/
theorem check_max_sentence_length_warnings (ends : List Nat) (ml : Option Nat)
    (msl : Nat) :
    checkMaxSentenceLength ends ml msl
      = ends.enum.filter (fun q => decide (resolveMx ml msl ≤ q.2)) ∧
    ∀ i e, (i, e) ∈ checkMaxSentenceLength ends ml msl ↔
      (ends[i]? = some e ∧ resolveMx ml msl ≤ e) := by
  have h := foldl_if_append_eq_filter
    (fun q : Nat × Nat => q.2 ≥ resolveMx ml msl) ends.enum []
  have h1 : checkMaxSentenceLength ends ml msl
      = ends.enum.filter (fun q => decide (resolveMx ml msl ≤ q.2)) := by
    simpa [checkMaxSentenceLength, resolveMx, ge_iff_le] using h
  refine ⟨h1, ?_⟩
  intro i e
  rw [h1]
  simp [List.mem_filter, List.mk_mem_enum_iff_getElem?]

/-- C10: every marked-sentence token `w` yields exactly
`max(0, len(w) + 2 - char_gram + 1)` char n-gram IDs (the token is
wrapped as `'<' + w + '>'` before slicing); a token whose wrapped form is
shorter than `char_gram` yields an empty ID sub-sequence and leaves the
char symbol table unchanged even in extend mode. -/
theorem char_ngram_count (w : String) (k : Nat) (t : SymbolTable) :
    ((charIdsExtend t w k).1.length = (((w.length : ℤ) + 2) - k + 1).toNat) ∧
    (("<" ++ w ++ ">").length < k → charIdsExtend t w k = ([], t)) := by
  have hlen : ("<" ++ w ++ ">").length = w.length + 2 := by
    rw [String.length_append, String.length_append]
    have h1 : ("<" : String).length = 1 := rfl
    have h2 : (">" : String).length = 1 := rfl
    omega
  constructor
  · rw [charIdsExtend, charIds_foldl_len]
    simp [wordCharSeq, hlen]
    omega
  · intro hk
    rw [hlen] at hk
    rw [charIdsExtend, wordCharSeq]
    have h0 : ("<" ++ w ++ ">").length + 1 - k = 0 := by omega
    rw [h0]
    simp

/-- Witness for C10 at a concrete short token. -/
theorem char_ngram_count_witness :
    ("<" ++ "" ++ ">").length < 5 ∧
      charIdsExtend SymbolTable.empty "" 5 = ([], SymbolTable.empty) :=
  ⟨by decide, (char_ngram_count "" 5 SymbolTable.empty).2 (by decide)⟩

/-- C2 counterexample: the validation prologue of `train` does NOT raise
on every target entry outside `[0,1]` nor on every non-row-stochastic
target: a binary 1-dimensional target with entry `2 > 1` passes, and a
3-class row summing to `0 ≠ 1` passes (`sum - 1 < 1e-10` is
one-sided). -/
theorem train_validation_claim_cex :
    trainValidate 2 (Marg.vec [2]) = .ok () ∧ ¬ ((2 : ℚ) ≤ 1) ∧
    trainValidate 3 (Marg.mat [[0, 0, 0]]) = .ok () ∧
    ([(0 : ℚ), 0, 0].sum ≠ 1) := by
  refine ⟨?_, by norm_num, ?_, by norm_num⟩
  · rw [trainValidate]
    norm_num [Marg.cardinality, reshape_marginals, Marg.entries]
  · rw [trainValidate]
    norm_num [Marg.cardinality, reshape_marginals, Marg.entries, Marg.rowsOf,
      rowTol]

/-- C2 (amended): the validation prologue of `train` raises (before any
model construction) exactly when (a) the targets' cardinality differs
from the model cardinality, or (b) the cardinality exceeds 2 and some
row of the targets sums to at least `1 + 1e-10` (rows summing below 1
are accepted), or (c) some entry of the reshaped targets is negative
(entries above 1 are accepted when no row-sum check applies). -/
theorem train_validation_rejects_iff (mc : Nat) (Y : Marg) :
    trainValidate mc Y ≠ .ok () ↔
      Y.cardinality ≠ mc ∨
      (2 < mc ∧ ∃ r ∈ (reshape_marginals Y).rowsOf, 1 + rowTol ≤ r.sum) ∨
      (∃ x ∈ (reshape_marginals Y).entries, x < 0) := by
  simp only [trainValidate]
  split_ifs with h1 h2 h3
  · exact iff_of_true (by simp) (Or.inl h1)
  · refine iff_of_true (by simp) (Or.inr (Or.inl ⟨h2.1, ?_⟩))
    have h2' : ∃ r ∈ (reshape_marginals Y).rowsOf, ¬ (r.sum - 1 < rowTol) := by
      by_contra hc
      push_neg at hc
      exact h2.2 (List.all_eq_true.mpr (fun r hr => decide_eq_true (hc r hr)))
    obtain ⟨r, hr, hlt⟩ := h2'
    exact ⟨r, hr, by linarith [not_lt.mp hlt]⟩
  · refine iff_of_false (by simp) ?_
    push_neg
    refine ⟨not_not.mp h1, ?_, ?_⟩
    · intro hmc r hr
      have hall : ((reshape_marginals Y).rowsOf).all
          (fun r => decide (r.sum - 1 < rowTol)) = true := by
        by_contra hc
        exact h2 ⟨hmc, hc⟩
      have hlt := List.all_eq_true.mp hall r hr
      rw [decide_eq_true_eq] at hlt
      linarith
    · intro x hx
      have hle := List.all_eq_true.mp h3 x hx
      rw [decide_eq_true_eq] at hle
      exact hle
  · refine iff_of_true (by simp) (Or.inr (Or.inr ?_))
    have h3' : ∃ x ∈ (reshape_marginals Y).entries, ¬ (0 ≤ x) := by
      by_contra hc
      push_neg at hc
      exact h3 (List.all_eq_true.mpr (fun x hx => decide_eq_true (hc x hx)))
    obtain ⟨x, hx, hlt⟩ := h3'
    exact ⟨x, hx, not_le.mp hlt⟩

/-- C1 (code bug): on the `create_dict(word=True, char=True)` path the
char symbol table is NOT pre-seeded with the char-wrap markers (the
source calls `.get` on the plain dict `char_dict_all`, a non-mutating
read), so both markers look up to the unknown ID afterwards — while the
`_preprocess_data` and `load_dict` initialization paths do seed them at
the reserved low IDs 2 and 3. -/
theorem create_dict_char_marker_bug :
    ((create_dict (W := Unit) (C := Unit) {} [] [] true true).toOption.bind
        (fun m => m.char_dict)).map (fun t => (t.lookup "<", t.lookup ">"))
      = some (unknown_symbol, unknown_symbol) ∧
    ((preprocessInit (W := Unit) (C := Unit) {}).char_dict).map
        (fun t => (t.lookup "<", t.lookup ">")) = some (2, 3) ∧
    ((load_dict (W := Unit) (C := Unit) {} [] []).toOption.bind
        (fun m => m.char_dict)).map (fun t => (t.lookup "<", t.lookup ">"))
      = some (2, 3) :=
  ⟨by decide, by decide, by decide⟩

/-- The union of dev/test surface words, accumulated in source order
(the spec-side description of what `word_dict_all` should hold). -/
def devWordAcc (a : List String) (te : List (List Cand)) : List String :=
  te.foldl (fun a cs =>
    cs.foldl (fun a c => keysUpdate a (candidate_to_tokens c)) a) a

/-- The union of dev/test characters, accumulated in source order (the
spec-side description of what `char_dict_all` should hold). -/
def devCharAcc (a : List String) (te : List (List Cand)) : List String :=
  te.foldl (fun a cs =>
    cs.foldl (fun a c => keysUpdate a (joinChars (candidate_to_tokens c))) a) a

lemma devTestStep_true_eq {W C : Type} (m : ModelState W C) (c : Cand)
    (wa ca : List String) (h1 : m.word_dict_all = some wa)
    (h2 : m.char_dict_all = some ca) :
    devTestStep true m c = .ok { m with
      word_dict_all := some (keysUpdate wa (candidate_to_tokens c)),
      char_dict_all := some (keysUpdate ca (joinChars (candidate_to_tokens c))) } := by
  simp [devTestStep, attrGet, h1, h2]

lemma devTestInner_true {W C : Type} (cs : List Cand) :
    ∀ (m : ModelState W C) (wa ca : List String),
      m.word_dict_all = some wa → m.char_dict_all = some ca →
      ∃ m', cs.foldlM (devTestStep true) m = .ok m' ∧
        m'.word_dict = m.word_dict ∧ m'.char_dict = m.char_dict ∧
        m'.word_dict_all
          = some (cs.foldl (fun a c => keysUpdate a (candidate_to_tokens c)) wa) ∧
        m'.char_dict_all
          = some (cs.foldl (fun a c =>
              keysUpdate a (joinChars (candidate_to_tokens c))) ca) := by
  induction cs with
  | nil =>
    intro m wa ca h1 h2
    exact ⟨m, by simp, rfl, rfl, by simpa using h1, by simpa using h2⟩
  | cons c cs ih =>
    intro m wa ca h1 h2
    rw [List.foldlM_cons, devTestStep_true_eq m c wa ca h1 h2]
    obtain ⟨m', hrun, hwd, hcd, hwa, hca⟩ :=
      ih { m with
        word_dict_all := some (keysUpdate wa (candidate_to_tokens c)),
        char_dict_all := some (keysUpdate ca (joinChars (candidate_to_tokens c))) }
        (keysUpdate wa (candidate_to_tokens c))
        (keysUpdate ca (joinChars (candidate_to_tokens c))) rfl rfl
    refine ⟨m', ?_, hwd, hcd, by simpa using hwa, by simpa using hca⟩
    simpa using hrun

lemma devTestInner_false {W C : Type} (cs : List Cand) :
    ∀ (m : ModelState W C), cs.foldlM (devTestStep false) m = .ok m := by
  induction cs with
  | nil => intro m; simp
  | cons c cs ih =>
    intro m
    rw [List.foldlM_cons]
    have : devTestStep false m c = .ok m := by simp [devTestStep]
    rw [this]
    simpa using ih m

lemma devTestVocabPass_true {W C : Type} (te : List (List Cand)) :
    ∀ (m : ModelState W C) (wa ca : List String),
      m.word_dict_all = some wa → m.char_dict_all = some ca →
      ∃ m', devTestVocabPass true te m = .ok m' ∧
        m'.word_dict = m.word_dict ∧ m'.char_dict = m.char_dict ∧
        m'.word_dict_all = some (devWordAcc wa te) ∧
        m'.char_dict_all = some (devCharAcc ca te) := by
  induction te with
  | nil =>
    intro m wa ca h1 h2
    exact ⟨m, by simp [devTestVocabPass], rfl, rfl,
      by simpa [devWordAcc] using h1, by simpa [devCharAcc] using h2⟩
  | cons cs te ih =>
    intro m wa ca h1 h2
    obtain ⟨m1, hrun1, hwd1, hcd1, hwa1, hca1⟩ := devTestInner_true cs m wa ca h1 h2
    obtain ⟨m', hrun, hwd, hcd, hwa, hca⟩ := ih m1 _ _ hwa1 hca1
    refine ⟨m', ?_, hwd.trans hwd1, hcd.trans hcd1,
      by simpa [devWordAcc] using hwa, by simpa [devCharAcc] using hca⟩
    rw [devTestVocabPass, List.foldlM_cons, hrun1]
    simpa [devTestVocabPass] using hrun

lemma devTestVocabPass_false {W C : Type} (te : List (List Cand)) :
    ∀ (m : ModelState W C), devTestVocabPass false te m = .ok m := by
  induction te with
  | nil => intro m; simp [devTestVocabPass]
  | cons cs te ih =>
    intro m
    rw [devTestVocabPass, List.foldlM_cons, devTestInner_false cs m]
    simpa [devTestVocabPass] using ih m

lemma trainVocabStep_ok {W C : Type} (word char : Bool) (m : ModelState W C)
    (c : Cand) (hw : word = true → m.word_dict.isSome = true)
    (hc : char = true → m.char_dict.isSome = true) :
    ∃ m', trainVocabStep word char m c = .ok m' ∧
      m'.word_dict_all = m.word_dict_all ∧
      m'.char_dict_all = m.char_dict_all ∧
      m'.word_dict.isSome = m.word_dict.isSome ∧
      m'.char_dict.isSome = m.char_dict.isSome := by
  cases word with
  | false =>
    cases char with
    | false => exact ⟨m, by simp [trainVocabStep], rfl, rfl, rfl, rfl⟩
    | true =>
      obtain ⟨cd, hcd⟩ := Option.isSome_iff_exists.mp (hc rfl)
      refine ⟨{ m with char_dict := some (cd.mapGet (joinChars (candidate_to_tokens c))) },
        ?_, rfl, rfl, rfl, by simp [hcd]⟩
      simp [trainVocabStep, attrGet, hcd]
  | true =>
    obtain ⟨wd, hwd⟩ := Option.isSome_iff_exists.mp (hw rfl)
    cases char with
    | false =>
      refine ⟨{ m with word_dict := some (wd.mapGet (candidate_to_tokens c)) },
        ?_, rfl, rfl, by simp [hwd], rfl⟩
      simp [trainVocabStep, attrGet, hwd]
    | true =>
      obtain ⟨cd, hcd⟩ := Option.isSome_iff_exists.mp (hc rfl)
      refine ⟨{ m with
          word_dict := some (wd.mapGet (candidate_to_tokens c)),
          char_dict := some (cd.mapGet (joinChars (candidate_to_tokens c))) },
        ?_, rfl, rfl, by simp [hwd], by simp [hcd]⟩
      simp [trainVocabStep, attrGet, hwd, hcd]

lemma trainVocabPass_ok {W C : Type} (word char : Bool) (tr : List Cand) :
    ∀ (m : ModelState W C), (word = true → m.word_dict.isSome = true) →
      (char = true → m.char_dict.isSome = true) →
      ∃ m', trainVocabPass word char tr m = .ok m' ∧
        m'.word_dict_all = m.word_dict_all ∧
        m'.char_dict_all = m.char_dict_all ∧
        m'.word_dict.isSome = m.word_dict.isSome ∧
        m'.char_dict.isSome = m.char_dict.isSome := by
  induction tr with
  | nil =>
    intro m _ _
    exact ⟨m, by simp [trainVocabPass], rfl, rfl, rfl, rfl⟩
  | cons c tr ih =>
    intro m hw hc
    obtain ⟨m1, hstep, hwa1, hca1, hwd1, hcd1⟩ := trainVocabStep_ok word char m c hw hc
    obtain ⟨m', hrun, hwa, hca, hwd, hcd⟩ := ih m1
      (fun h => hwd1.trans (hw h)) (fun h => hcd1.trans (hc h))
    refine ⟨m', ?_, hwa.trans hwa1, hca.trans hca1,
      hwd.trans hwd1, hcd.trans hcd1⟩
    rw [trainVocabPass, List.foldlM_cons, hstep]
    simpa [trainVocabPass] using hrun

lemma create_dict_eq_tt {W C : Type} (m : ModelState W C) (tr : List Cand)
    (te : List (List Cand)) :
    create_dict m tr te true true
      = (trainVocabPass true true tr
          { m with word_dict := some (SymbolTable.empty.mapGet wordPads),
                   word_dict_all := some [],
                   char_dict := some SymbolTable.empty,
                   char_dict_all := some [] }) >>= devTestVocabPass true te := rfl

lemma create_dict_eq_ft {W C : Type} (m : ModelState W C) (tr : List Cand)
    (te : List (List Cand)) :
    create_dict m tr te false true
      = (trainVocabPass false true tr
          { m with char_dict := some SymbolTable.empty,
                   char_dict_all := some [] }) >>= devTestVocabPass false te := rfl

/-- C7 counterexample: with `word=False, char=True`, `create_dict` does
NOT record the dev/test characters into `char_dict_all` (the update is
guarded by `if word:` in the source): a test split containing the
character `"x"` leaves `char_dict_all` empty. -/
theorem create_dict_dev_test_cex :
    ((create_dict (W := Unit) (C := Unit) {} [] [[["x"]]] false true).toOption.map
        (fun m => (m.word_dict_all, m.char_dict_all))) = some (none, some []) ∧
    joinChars ["x"] = ["x"] :=
  ⟨by decide, by decide⟩

/-- C7 (amended): `create_dict` records the dev/test union vocabularies
into the non-mutating sets `word_dict_all` (surface words) and
`char_dict_all` (characters) when the WORD flag is on — not the char
flag — and the dev/test loop never inserts into the training tables
`word_dict`/`char_dict` (the training tables after `create_dict` with a
dev/test split equal those with an empty dev/test split); with
`word=False, char=True` the dev/test split is ignored entirely. -/
theorem create_dict_dev_test_union :
    (∀ (tr : List Cand) (te : List (List Cand)),
      ∃ m' mtr : ModelState Unit Unit,
        create_dict {} tr te true true = .ok m' ∧
        m'.word_dict_all = some (devWordAcc [] te) ∧
        m'.char_dict_all = some (devCharAcc [] te) ∧
        create_dict {} tr [] true true = .ok mtr ∧
        m'.word_dict = mtr.word_dict ∧ m'.char_dict = mtr.char_dict) ∧
    (∀ (tr : List Cand) (te : List (List Cand)),
      ∃ m' : ModelState Unit Unit,
        create_dict {} tr te false true = .ok m' ∧
        m'.char_dict_all = some [] ∧ m'.word_dict_all = none) := by
  constructor
  · intro tr te
    obtain ⟨m1, h1, hwa1, hca1, _, _⟩ :=
      trainVocabPass_ok (W := Unit) (C := Unit) true true tr
        { word_dict := some (SymbolTable.empty.mapGet wordPads),
          word_dict_all := some [],
          char_dict := some SymbolTable.empty,
          char_dict_all := some [] } (fun _ => rfl) (fun _ => rfl)
    obtain ⟨m', hrun, hwd, hcd, hwa, hca⟩ :=
      devTestVocabPass_true te m1 [] [] (by simpa using hwa1)
        (by simpa using hca1)
    refine ⟨m', m1, ?_, hwa, hca, ?_, hwd, hcd⟩
    · rw [create_dict_eq_tt, h1]
      simpa using hrun
    · rw [create_dict_eq_tt, h1]
      simp [devTestVocabPass]
  · intro tr te
    obtain ⟨m1, h1, hwa1, hca1, _, _⟩ :=
      trainVocabPass_ok (W := Unit) (C := Unit) false true tr
        { char_dict := some SymbolTable.empty, char_dict_all := some [] }
        (fun h => by cases h) (fun _ => rfl)
    refine ⟨m1, ?_, by simpa using hca1, by simpa using hwa1⟩
    rw [create_dict_eq_ft, h1]
    simpa using devTestVocabPass_false te m1

/-- C5: `only_param` persistence touches exactly the two encoder
networks: `save(only_param=True)` writes only the two network-weight
files (leaving `model_kwargs.pkl` and `model_dicts.pkl` unwritten), and
`load(only_param=True)` replaces only `word_model`/`char_model`,
leaving the symbol tables, embedding matrices, the `*_dict_all` sets and
every configuration attribute unchanged. -/
theorem only_param_frame {W C : Type} [Inhabited W] [Inhabited C]
    (m : ModelState W C) (fs : Checkpoint W C) (w : W) (c : C)
    (hw : fs.word_model_file = some w) (hc : fs.char_model_file = some c) :
    (save m fs true).model_kwargs_file = fs.model_kwargs_file ∧
    (save m fs true).model_dicts_file = fs.model_dicts_file ∧
    (save m fs true).word_model_file = some (m.word_model.getD default) ∧
    (save m fs true).char_model_file = some (m.char_model.getD default) ∧
    ∃ m', load m fs true = .ok m' ∧
      m'.word_model = some w ∧ m'.char_model = some c ∧
      m'.word_dict = m.word_dict ∧ m'.char_dict = m.char_dict ∧
      m'.word_dict_all = m.word_dict_all ∧ m'.char_dict_all = m.char_dict_all ∧
      m'.word_emb = m.word_emb ∧ m'.char_emb = m.char_emb ∧
      m'.cfg = m.cfg := by
  refine ⟨rfl, rfl, rfl, rfl,
    { m with word_model := some w, char_model := some c }, ?_,
    rfl, rfl, rfl, rfl, rfl, rfl, rfl, rfl, rfl⟩
  simp only [load, hw, hc]
  rfl

/-- The two network objects after `k` epochs of training (the abstract
epoch transformer iterated from their initial construction). -/
def trainedPair {W C : Type} (step : W × C → W × C) (w0 : W) (c0 : C)
    (k : Nat) : W × C := step^[k] (w0, c0)

/-- The loop invariant of `train`: after `idx` trained epochs, the
in-memory networks are the `idx`-fold trained pair; `dev_score_opt` is
nonnegative, zero until a best epoch is recorded; and once
`last_epoch_opt = e` is recorded, the checkpoint files hold the pair
trained through epoch `e` and `dev_score_opt` is the (positive) dev
score at `e`. -/
def TrainInv {W C : Type} (score : Nat → ℚ) (step : W × C → W × C)
    (w0 : W) (c0 : C) (idx : Nat) (st : LoopState W C) : Prop :=
  st.model.word_model = some (trainedPair step w0 c0 idx).1 ∧
  st.model.char_model = some (trainedPair step w0 c0 idx).2 ∧
  0 ≤ st.dev_score_opt ∧
  (st.last_epoch_opt = none → st.dev_score_opt = 0) ∧
  (∀ e, st.last_epoch_opt = some e →
    st.fs.word_model_file = some (trainedPair step w0 c0 (e + 1)).1 ∧
    st.fs.char_model_file = some (trainedPair step w0 c0 (e + 1)).2 ∧
    st.dev_score_opt = score e ∧ 0 < st.dev_score_opt)

lemma stepModel_eq {W C : Type} (step : W × C → W × C) (w0 : W) (c0 : C)
    (idx : Nat) (m : ModelState W C)
    (hw : m.word_model = some (trainedPair step w0 c0 idx).1)
    (hc : m.char_model = some (trainedPair step w0 c0 idx).2) :
    stepModel step m = { m with
      word_model := some (trainedPair step w0 c0 (idx + 1)).1,
      char_model := some (trainedPair step w0 c0 (idx + 1)).2 } := by
  rw [stepModel, hw, hc]
  have h : trainedPair step w0 c0 (idx + 1)
      = step (trainedPair step w0 c0 idx) := by
    rw [trainedPair, trainedPair, Function.iterate_succ_apply']
  rw [h]

lemma epochBody_inv {W C : Type} [Inhabited W] [Inhabited C] (cfg : LoopCfg)
    (score : Nat → ℚ) (step : W × C → W × C) (w0 : W) (c0 : C) (idx : Nat)
    (st : LoopState W C) (h : TrainInv score step w0 c0 idx st) :
    TrainInv score step w0 c0 (idx + 1) (epochBody cfg score step st idx).1 := by
  obtain ⟨hw, hc, hnn, hnone, hsome⟩ := h
  have hstep := stepModel_eq step w0 c0 idx st.model hw hc
  simp only [epochBody]
  by_cases hvc : cfg.print_freq > 0 ∧
      ((idx + 1) % cfg.print_freq = 0 ∨ idx + 1 = cfg.n_epochs)
  · rw [if_pos hvc]
    by_cases himp : cfg.hasDev = true ∧ cfg.dev_ckpt = true ∧
        (idx : ℚ) > cfg.dev_ckpt_delay * (cfg.n_epochs : ℚ) ∧
        score idx > st.dev_score_opt
    · rw [if_pos himp]
      refine ⟨by simp [hstep], by simp [hstep], ?_, ?_, ?_⟩
      · exact le_of_lt (lt_of_le_of_lt hnn himp.2.2.2)
      · intro hno; cases hno
      · intro e he
        obtain rfl : idx = e := by cases he; rfl
        refine ⟨?_, ?_, rfl, lt_of_le_of_lt hnn himp.2.2.2⟩
        · simp [save, hstep]
        · simp [save, hstep]
    · rw [if_neg himp]
      exact ⟨by simp [hstep], by simp [hstep], hnn, hnone, hsome⟩
  · rw [if_neg hvc]
    exact ⟨by simp [hstep], by simp [hstep], hnn, hnone, hsome⟩

lemma runFrom_inv {W C : Type} [Inhabited W] [Inhabited C] (cfg : LoopCfg)
    (score : Nat → ℚ) (step : W × C → W × C) (w0 : W) (c0 : C) :
    ∀ (k a : Nat) (st : LoopState W C), TrainInv score step w0 c0 a st →
      ∃ b, TrainInv score step w0 c0 b
        (runFrom cfg score step (List.range' a k) st).1 := by
  intro k
  induction k with
  | zero => intro a st h; exact ⟨a, h⟩
  | succ k ih =>
    intro a st h
    rw [List.range'_succ, runFrom]
    have hb := epochBody_inv cfg score step w0 c0 a st h
    by_cases hbrk : (epochBody cfg score step st a).2 = true
    · rw [if_pos hbrk]
      exact ⟨a + 1, hb⟩
    · rw [if_neg hbrk]
      exact ih (a + 1) _ hb

/-- C3: the patience-based early stop.  First part: at any check epoch
(`verbose` and the `print_freq` granularity condition), once a best
epoch `e` is recorded and the dev score does not improve, the loop
breaks as soon as `idx - e > patience` with checkpointing on and
`idx > dev_ckpt_delay * n_epochs`.  Second part, concretely: with
`patience=2`, `dev_ckpt_delay=0.0`, `print_freq=1`, a constant positive
dev score (which is first recordable at epoch index 1 because the delay
comparison is strict), training breaks exactly at the check at epoch
index `4 = 1 + 2 + 1`, before completing the configured 10 epochs. -/
theorem patience_early_stopping :
    (∀ (cfg : LoopCfg) (score : Nat → ℚ) (step : Nat × Nat → Nat × Nat)
        (st : LoopState Nat Nat) (idx e : Nat),
      cfg.print_freq > 0 →
      ((idx + 1) % cfg.print_freq = 0 ∨ idx + 1 = cfg.n_epochs) →
      st.last_epoch_opt = some e →
      score idx ≤ st.dev_score_opt →
      idx - e > cfg.patience →
      cfg.dev_ckpt = true →
      (idx : ℚ) > cfg.dev_ckpt_delay * (cfg.n_epochs : ℚ) →
      (epochBody cfg score step st idx).2 = true) ∧
    ((trainCore ⟨10, 1, 2, true, 0, true⟩ (fun _ => 4/5)
        (fun p : Nat × Nat => (p.1 + 1, p.2 + 1))
        { word_model := some 0, char_model := some 0 } {}).2 = some 4 ∧
      (trainCore ⟨10, 1, 2, true, 0, true⟩ (fun _ => 4/5)
        (fun p : Nat × Nat => (p.1 + 1, p.2 + 1))
        { word_model := some 0, char_model := some 0 } {}).1.last_epoch_opt
        = some 1 ∧
      4 = 1 + 2 + 1 ∧ 4 + 1 < 10) := by
  constructor
  · intro cfg score step st idx e hpf hchk hlast hflat hpat hck hdel
    simp only [epochBody]
    rw [if_pos ⟨hpf, hchk⟩]
    rw [if_neg (fun hx => absurd hx.2.2.2 (not_lt.mpr hflat))]
    simp [hlast, hpat, hck, hdel]
  · have hrange : List.range 10 = [0, 1, 2, 3, 4, 5, 6, 7, 8, 9] := by decide
    refine ⟨?_, ?_, by norm_num, by norm_num⟩
    · rw [trainCore, hrange]
      norm_num [runFrom, epochBody, stepModel, save]
    · rw [trainCore, hrange]
      norm_num [runFrom, epochBody, stepModel, save]

/-- Witness for C3 at a concrete loop state and check epoch. -/
theorem patience_early_stopping_witness :
    (epochBody ⟨10, 1, 2, true, 0, true⟩ (fun _ => 4/5)
      (fun p : Nat × Nat => (p.1 + 1, p.2 + 1))
      { model := { word_model := some 0, char_model := some 0 }, fs := {},
        dev_score_opt := 4/5, last_epoch_opt := some 1 } 4).2 = true :=
  patience_early_stopping.1 _ _ _ _ 4 1 (by norm_num) (by norm_num) rfl
    (by norm_num) (by norm_num) rfl (by norm_num)

/-- C4: whenever checkpointing was on, a dev set was supplied, output
was verbose, and a best epoch `e` was recorded, `train()` ends by
reloading the parameter-only checkpoint: the in-memory networks after
`train()` are the pair trained through epoch `e` (the best-scoring
checkpoint, whose score is the recorded optimum), not necessarily the
last trained epoch's pair. -/
theorem best_checkpoint_restored {W C : Type} [Inhabited W] [Inhabited C]
    (cfg : LoopCfg) (score : Nat → ℚ) (step : W × C → W × C)
    (w0 : W) (c0 : C) (m0 : ModelState W C) (fs0 : Checkpoint W C)
    (hw0 : m0.word_model = some w0) (hc0 : m0.char_model = some c0)
    (hck : cfg.dev_ckpt = true) (hdev : cfg.hasDev = true)
    (hv : cfg.print_freq > 0) (e : Nat)
    (hbest : (trainCore cfg score step m0 fs0).1.last_epoch_opt = some e) :
    ∃ st, trainRun cfg score step m0 fs0 = .ok st ∧
      st.model.word_model = some (trainedPair step w0 c0 (e + 1)).1 ∧
      st.model.char_model = some (trainedPair step w0 c0 (e + 1)).2 ∧
      st.dev_score_opt = score e ∧ st.last_epoch_opt = some e := by
  have hinit : TrainInv score step w0 c0 0
      (⟨m0, fs0, 0, none⟩ : LoopState W C) := by
    refine ⟨?_, ?_, le_refl 0, fun _ => rfl, fun e he => by cases he⟩
    · simpa [trainedPair] using hw0
    · simpa [trainedPair] using hc0
  obtain ⟨b, hInv⟩ := by
    have := runFrom_inv cfg score step w0 c0 cfg.n_epochs 0
      ⟨m0, fs0, 0, none⟩ hinit
    rwa [← List.range_eq_range', ← trainCore] at this
  obtain ⟨hfw, hfc, hopt, hpos⟩ := hInv.2.2.2.2 e hbest
  rw [trainRun, trainFinish]
  rw [if_pos ⟨hck, hdev, hv, hpos⟩]
  rw [load]
  simp only [hfw, hfc, if_pos rfl]
  refine ⟨_, rfl, ?_, ?_, hopt, hbest⟩ <;> simp

/-- Witness for C4: in the concrete early-stopping run (best epoch
recorded at index 1, training stopped at index 4), the restored
in-memory pair is the one trained through epoch 1 — `(2, 2)` — not the
last trained pair. -/
theorem best_checkpoint_restored_witness :
    ∃ st, trainRun ⟨10, 1, 2, true, 0, true⟩ (fun _ => 4/5)
        (fun p : Nat × Nat => (p.1 + 1, p.2 + 1))
        { word_model := some 0, char_model := some 0 } {} = .ok st ∧
      st.model.word_model
        = some (trainedPair (fun p : Nat × Nat => (p.1 + 1, p.2 + 1)) 0 0 (1 + 1)).1 ∧
      st.model.char_model
        = some (trainedPair (fun p : Nat × Nat => (p.1 + 1, p.2 + 1)) 0 0 (1 + 1)).2 ∧
      st.dev_score_opt = (fun _ : Nat => (4 : ℚ)/5) 1 ∧
      st.last_epoch_opt = some 1 :=
  best_checkpoint_restored ⟨10, 1, 2, true, 0, true⟩ (fun _ => 4/5)
    (fun p : Nat × Nat => (p.1 + 1, p.2 + 1)) 0 0
    { word_model := some 0, char_model := some 0 } {} rfl rfl rfl rfl
    (by norm_num) 1
    (by
      have hrange : List.range 10 = [0, 1, 2, 3, 4, 5, 6, 7, 8, 9] := by decide
      rw [trainCore, hrange]
      norm_num [runFrom, epochBody, stepModel, save])

/-- Witness for C5 at a concrete model and checkpoint directory. -/
theorem only_param_frame_witness :
    (save (W := Nat) (C := Nat) {}
        { word_model_file := some 7, char_model_file := some 8 } true).model_kwargs_file
      = ({ word_model_file := some 7, char_model_file := some 8 } :
          Checkpoint Nat Nat).model_kwargs_file ∧
    (save (W := Nat) (C := Nat) {}
        { word_model_file := some 7, char_model_file := some 8 } true).model_dicts_file
      = ({ word_model_file := some 7, char_model_file := some 8 } :
          Checkpoint Nat Nat).model_dicts_file ∧
    (save (W := Nat) (C := Nat) {}
        { word_model_file := some 7, char_model_file := some 8 } true).word_model_file
      = some (({} : ModelState Nat Nat).word_model.getD default) ∧
    (save (W := Nat) (C := Nat) {}
        { word_model_file := some 7, char_model_file := some 8 } true).char_model_file
      = some (({} : ModelState Nat Nat).char_model.getD default) ∧
    ∃ m', load (W := Nat) (C := Nat) {}
        { word_model_file := some 7, char_model_file := some 8 } true = .ok m' ∧
      m'.word_model = some 7 ∧ m'.char_model = some 8 ∧
      m'.word_dict = ({} : ModelState Nat Nat).word_dict ∧
      m'.char_dict = ({} : ModelState Nat Nat).char_dict ∧
      m'.word_dict_all = ({} : ModelState Nat Nat).word_dict_all ∧
      m'.char_dict_all = ({} : ModelState Nat Nat).char_dict_all ∧
      m'.word_emb = ({} : ModelState Nat Nat).word_emb ∧
      m'.char_emb = ({} : ModelState Nat Nat).char_emb ∧
      m'.cfg = ({} : ModelState Nat Nat).cfg :=
  only_param_frame {} { word_model_file := some 7, char_model_file := some 8 }
    7 8 rfl rfl

/-- C6: `load_embeddings` first runs `load_dict` to completion, then
allocates the word and char embedding matrices with row counts equal to
the final symbol-table sizes (rows drawn by the random initializers
`randW`/`randC`), and then, for each embedding-file token, overwrites
row `lookup_strict(token)` with the parsed vector exactly when `lookup`
is not the unknown ID; every vocabulary token absent from the embedding
file keeps its random-initialized row unmodified. -/
theorem load_embeddings_rows {W C : Type} (m : ModelState W C)
    (wl cl : List String) (pyFloat : String → ℚ) (randW randC : Nat → List ℚ)
    (hfw : m.word_dict = none) (hfc : m.char_dict = none)
    (hw : ∀ l ∈ effWordLines m.cfg.word_emb_path wl,
      (splitLine l).length = m.cfg.word_emb_dim + 1)
    (hc : ∀ l ∈ cl, (splitLine l).length = m.cfg.char_emb_dim + 1)
    (hnw : ((effWordLines m.cfg.word_emb_path wl).map
      (tokOf m.cfg.replace)).Nodup)
    (hnc : (cl.map (tokOf m.cfg.replace)).Nodup) :
    ∃ (md m' : ModelState W C) (wd cd : SymbolTable),
      load_dict m wl cl = .ok md ∧
      md.word_dict = some wd ∧ md.char_dict = some cd ∧
      load_embeddings pyFloat randW randC m wl cl = .ok m' ∧
      m'.word_dict = some wd ∧ m'.char_dict = some cd ∧
      m'.word_emb.rows = wd.s ∧ m'.char_emb.rows = cd.s ∧
      (∀ l ∈ effWordLines m.cfg.word_emb_path wl,
        wd.lookup (tokOf m.cfg.replace l) ≠ unknown_symbol →
        ∃ r, wd.lookup_strict (tokOf m.cfg.replace l) = some r ∧
          m'.word_emb.row r = parseVec pyFloat m.cfg.word_emb_dim (splitLine l)) ∧
      (∀ w r, wd.lookup_strict w = some r →
        (∀ l ∈ effWordLines m.cfg.word_emb_path wl,
          tokOf m.cfg.replace l ≠ w) →
        m'.word_emb.row r = randW r) ∧
      (∀ l ∈ cl, cd.lookup (tokOf m.cfg.replace l) ≠ unknown_symbol →
        ∃ r, cd.lookup_strict (tokOf m.cfg.replace l) = some r ∧
          m'.char_emb.row r = parseVec pyFloat m.cfg.char_emb_dim (splitLine l)) ∧
      (∀ w r, cd.lookup_strict w = some r →
        (∀ l ∈ cl, tokOf m.cfg.replace l ≠ w) →
        m'.char_emb.row r = randC r) := by
  obtain ⟨lw, lc, hld⟩ := load_dict_ok m wl cl hw hc
  have hwfw : (((m.word_dict.getD SymbolTable.empty).mapGet wordPads).mapGet
      lw).WF := by
    rw [hfw]
    exact WF_mapGet lw _ (WF_mapGet wordPads _ WF_empty)
  have hwfc : (((m.char_dict.getD SymbolTable.empty).mapGet char_marker).mapGet
      lc).WF := by
    rw [hfc]
    exact WF_mapGet lc _ (WF_mapGet char_marker _ WF_empty)
  obtain ⟨wembF, hwrun, hwrows, hwhit, hwmiss⟩ :=
    emb_fold_rows pyFloat m.cfg.word_emb_dim m.cfg.replace _
      "Word embedding dimension does not match!" hwfw
      (effWordLines m.cfg.word_emb_path wl)
      ⟨(((m.word_dict.getD SymbolTable.empty).mapGet wordPads).mapGet lw).s,
        randW⟩ hw hnw
  obtain ⟨cembF, hcrun, hcrows, hchit, hcmiss⟩ :=
    emb_fold_rows pyFloat m.cfg.char_emb_dim m.cfg.replace _
      "Char embedding dimension does not match!" hwfc cl
      ⟨(((m.char_dict.getD SymbolTable.empty).mapGet char_marker).mapGet lc).s,
        randC⟩ hc hnc
  have hwrun' : embOverwritePass pyFloat m.cfg.word_emb_dim m.cfg.replace
      (((m.word_dict.getD SymbolTable.empty).mapGet wordPads).mapGet lw)
      (effWordLines m.cfg.word_emb_path wl)
      ⟨(((m.word_dict.getD SymbolTable.empty).mapGet wordPads).mapGet lw).s,
        randW⟩
      "Word embedding dimension does not match!" = .ok wembF := hwrun
  have hcrun' : embOverwritePass pyFloat m.cfg.char_emb_dim m.cfg.replace
      (((m.char_dict.getD SymbolTable.empty).mapGet char_marker).mapGet lc) cl
      ⟨(((m.char_dict.getD SymbolTable.empty).mapGet char_marker).mapGet lc).s,
        randC⟩
      "Char embedding dimension does not match!" = .ok cembF := hcrun
  have hle : load_embeddings pyFloat randW randC m wl cl = .ok { m with
      word_dict := some
        (((m.word_dict.getD SymbolTable.empty).mapGet wordPads).mapGet lw),
      char_dict := some
        (((m.char_dict.getD SymbolTable.empty).mapGet char_marker).mapGet lc),
      word_emb := wembF, char_emb := cembF } := by
    rw [load_embeddings]
    rw [hld]
    simp only [except_bind_ok]
    simp only [Option.getD_some]
    rw [hwrun']
    simp only [except_bind_ok]
    rw [hcrun']
    simp only [except_bind_ok]
    rfl
  refine ⟨_, _, _, _, hld, rfl, rfl, hle, rfl, rfl, ?_, ?_, ?_, ?_, ?_, ?_⟩
  · rw [hwrows]
  · rw [hcrows]
  · intro l hl hg
    obtain ⟨r, hr, hrow⟩ := hwhit l hl hg
    exact ⟨r, hr, hrow⟩
  · intro w r hsr hnot
    have := hwmiss r (fun l hl heq => hnot l hl
      (strict_inj _ hwfw heq hsr))
    rw [this]
  · intro l hl hg
    obtain ⟨r, hr, hrow⟩ := hchit l hl hg
    exact ⟨r, hr, hrow⟩
  · intro w r hsr hnot
    have := hcmiss r (fun l hl heq => hnot l hl
      (strict_inj _ hwfc heq hsr))
    rw [this]

/-- C8: in both `load_dict` and `load_embeddings`, the whole load fails
with the dimension-mismatch assertion exactly when some scanned line
(the fastText header line of the word file excepted) splits to a token
count different from `embedding_dim + 1`; equivalently, a successful
load means every scanned line had the right token count, so no
wrong-count line is ever silently skipped or partially applied. -/
theorem embedding_dim_mismatch_fails {W C : Type} (m : ModelState W C)
    (wl cl : List String) (pyFloat : String → ℚ)
    (randW randC : Nat → List ℚ) :
    ((∃ e, load_dict m wl cl = .error e) ↔
      ((∃ l ∈ effWordLines m.cfg.word_emb_path wl,
          (splitLine l).length ≠ m.cfg.word_emb_dim + 1) ∨
        (∃ l ∈ cl, (splitLine l).length ≠ m.cfg.char_emb_dim + 1))) ∧
    ((∃ e, load_embeddings pyFloat randW randC m wl cl = .error e) ↔
      ((∃ l ∈ effWordLines m.cfg.word_emb_path wl,
          (splitLine l).length ≠ m.cfg.word_emb_dim + 1) ∨
        (∃ l ∈ cl, (splitLine l).length ≠ m.cfg.char_emb_dim + 1))) := by
  constructor
  · constructor
    · intro ⟨e, he⟩
      by_contra hno
      push_neg at hno
      obtain ⟨lw, lc, hld⟩ := load_dict_ok m wl cl hno.1 hno.2
      rw [hld] at he
      cases he
    · intro h
      rcases h with hwb | hcb
      · have herr := collect_fold_err m.cfg.word_emb_dim m.cfg.replace
          m.word_dict_all "Word embedding dimension does not match!"
          (effWordLines m.cfg.word_emb_path wl) [] hwb
        refine ⟨"Word embedding dimension does not match!", ?_⟩
        rw [load_dict]
        have herr' : collectPass m.cfg.word_emb_dim m.cfg.replace
            m.word_dict_all (effWordLines m.cfg.word_emb_path wl)
            "Word embedding dimension does not match!"
            = .error "Word embedding dimension does not match!" := herr
        rw [herr']
        simp
      · by_cases hwb : ∃ l ∈ effWordLines m.cfg.word_emb_path wl,
          (splitLine l).length ≠ m.cfg.word_emb_dim + 1
        · have herr := collect_fold_err m.cfg.word_emb_dim m.cfg.replace
            m.word_dict_all "Word embedding dimension does not match!"
            (effWordLines m.cfg.word_emb_path wl) [] hwb
          refine ⟨"Word embedding dimension does not match!", ?_⟩
          rw [load_dict]
          have herr' : collectPass m.cfg.word_emb_dim m.cfg.replace
              m.word_dict_all (effWordLines m.cfg.word_emb_path wl)
              "Word embedding dimension does not match!"
              = .error "Word embedding dimension does not match!" := herr
          rw [herr']
          simp
        · push_neg at hwb
          obtain ⟨lw, hlw⟩ := collect_fold_ok m.cfg.word_emb_dim m.cfg.replace
            m.word_dict_all "Word embedding dimension does not match!"
            (effWordLines m.cfg.word_emb_path wl) [] hwb
          have hlw' : collectPass m.cfg.word_emb_dim m.cfg.replace
              m.word_dict_all (effWordLines m.cfg.word_emb_path wl)
              "Word embedding dimension does not match!" = .ok lw := hlw
          have herr := collect_fold_err m.cfg.char_emb_dim m.cfg.replace
            m.char_dict_all "Char embedding dimension does not match!" cl [] hcb
          have herr' : collectPass m.cfg.char_emb_dim m.cfg.replace
              m.char_dict_all cl "Char embedding dimension does not match!"
              = .error "Char embedding dimension does not match!" := herr
          refine ⟨"Char embedding dimension does not match!", ?_⟩
          rw [load_dict, hlw']
          simp only [except_bind_ok]
          rw [herr']
          simp
  · constructor
    · intro ⟨e, he⟩
      by_contra hno
      push_neg at hno
      obtain ⟨lw, lc, hld⟩ := load_dict_ok m wl cl hno.1 hno.2
      obtain ⟨wembF, hwrun⟩ := emb_fold_ok pyFloat m.cfg.word_emb_dim
        m.cfg.replace
        (((m.word_dict.getD SymbolTable.empty).mapGet wordPads).mapGet lw)
        "Word embedding dimension does not match!"
        (effWordLines m.cfg.word_emb_path wl)
        ⟨(((m.word_dict.getD SymbolTable.empty).mapGet wordPads).mapGet lw).s,
          randW⟩ hno.1
      obtain ⟨cembF, hcrun⟩ := emb_fold_ok pyFloat m.cfg.char_emb_dim
        m.cfg.replace
        (((m.char_dict.getD SymbolTable.empty).mapGet char_marker).mapGet lc)
        "Char embedding dimension does not match!" cl
        ⟨(((m.char_dict.getD SymbolTable.empty).mapGet char_marker).mapGet lc).s,
          randC⟩ hno.2
      rw [load_embeddings, hld] at he
      simp only [except_bind_ok, Option.getD_some] at he
      have hwrun' : embOverwritePass pyFloat m.cfg.word_emb_dim m.cfg.replace
          (((m.word_dict.getD SymbolTable.empty).mapGet wordPads).mapGet lw)
          (effWordLines m.cfg.word_emb_path wl)
          ⟨(((m.word_dict.getD SymbolTable.empty).mapGet wordPads).mapGet lw).s,
            randW⟩
          "Word embedding dimension does not match!" = .ok wembF := hwrun
      rw [hwrun'] at he
      simp only [except_bind_ok] at he
      have hcrun' : embOverwritePass pyFloat m.cfg.char_emb_dim m.cfg.replace
          (((m.char_dict.getD SymbolTable.empty).mapGet char_marker).mapGet lc)
          cl
          ⟨(((m.char_dict.getD SymbolTable.empty).mapGet char_marker).mapGet
            lc).s, randC⟩
          "Char embedding dimension does not match!" = .ok cembF := hcrun
      rw [hcrun'] at he
      simp only [except_bind_ok] at he
      cases he
    · intro h
      by_cases hwb : ∃ l ∈ effWordLines m.cfg.word_emb_path wl,
        (splitLine l).length ≠ m.cfg.word_emb_dim + 1
      · have herr := collect_fold_err m.cfg.word_emb_dim m.cfg.replace
          m.word_dict_all "Word embedding dimension does not match!"
          (effWordLines m.cfg.word_emb_path wl) [] hwb
        have herr' : collectPass m.cfg.word_emb_dim m.cfg.replace
            m.word_dict_all (effWordLines m.cfg.word_emb_path wl)
            "Word embedding dimension does not match!"
            = .error "Word embedding dimension does not match!" := herr
        refine ⟨"Word embedding dimension does not match!", ?_⟩
        rw [load_embeddings, load_dict, herr']
        simp
      · push_neg at hwb
        have hcb : ∃ l ∈ cl, (splitLine l).length ≠ m.cfg.char_emb_dim + 1 := by
          rcases h with hwb' | hcb
          · obtain ⟨l, hl, hll⟩ := hwb'
            exact absurd (hwb l hl) hll
          · exact hcb
        obtain ⟨lw, hlw⟩ := collect_fold_ok m.cfg.word_emb_dim m.cfg.replace
          m.word_dict_all "Word embedding dimension does not match!"
          (effWordLines m.cfg.word_emb_path wl) [] hwb
        have hlw' : collectPass m.cfg.word_emb_dim m.cfg.replace
            m.word_dict_all (effWordLines m.cfg.word_emb_path wl)
            "Word embedding dimension does not match!" = .ok lw := hlw
        have herrc := collect_fold_err m.cfg.char_emb_dim m.cfg.replace
          m.char_dict_all "Char embedding dimension does not match!" cl [] hcb
        have herrc' : collectPass m.cfg.char_emb_dim m.cfg.replace
            m.char_dict_all cl "Char embedding dimension does not match!"
            = .error "Char embedding dimension does not match!" := herrc
        refine ⟨"Char embedding dimension does not match!", ?_⟩
        rw [load_embeddings, load_dict, hlw']
        simp only [except_bind_ok]
        rw [herrc']
        simp

/-- A concrete fresh model for the C6 witness: one dev/test word `a`,
one dev/test char `b`, both embedding dims 1, plain-text paths. -/
def c6m : ModelState Unit Unit :=
  { word_dict_all := some ["a"], char_dict_all := some ["b"],
    cfg := { word_emb_dim := 1, char_emb_dim := 1 } }

/-- Witness for C6 at a concrete model and two one-line embedding
files. -/
theorem load_embeddings_rows_witness :
    ∃ (md m' : ModelState Unit Unit) (wd cd : SymbolTable),
      load_dict c6m ["a 1"] ["b 2"] = .ok md ∧
      md.word_dict = some wd ∧ md.char_dict = some cd ∧
      load_embeddings (fun _ => 0) (fun _ => []) (fun _ => [])
        c6m ["a 1"] ["b 2"] = .ok m' ∧
      m'.word_dict = some wd ∧ m'.char_dict = some cd ∧
      m'.word_emb.rows = wd.s ∧ m'.char_emb.rows = cd.s ∧
      (∀ l ∈ effWordLines c6m.cfg.word_emb_path ["a 1"],
        wd.lookup (tokOf c6m.cfg.replace l) ≠ unknown_symbol →
        ∃ r, wd.lookup_strict (tokOf c6m.cfg.replace l) = some r ∧
          m'.word_emb.row r
            = parseVec (fun _ => 0) c6m.cfg.word_emb_dim (splitLine l)) ∧
      (∀ w r, wd.lookup_strict w = some r →
        (∀ l ∈ effWordLines c6m.cfg.word_emb_path ["a 1"],
          tokOf c6m.cfg.replace l ≠ w) →
        m'.word_emb.row r = []) ∧
      (∀ l ∈ ["b 2"], cd.lookup (tokOf c6m.cfg.replace l) ≠ unknown_symbol →
        ∃ r, cd.lookup_strict (tokOf c6m.cfg.replace l) = some r ∧
          m'.char_emb.row r
            = parseVec (fun _ => 0) c6m.cfg.char_emb_dim (splitLine l)) ∧
      (∀ w r, cd.lookup_strict w = some r →
        (∀ l ∈ ["b 2"], tokOf c6m.cfg.replace l ≠ w) →
        m'.char_emb.row r = []) :=
  load_embeddings_rows c6m ["a 1"] ["b 2"] (fun _ => 0) (fun _ => [])
    (fun _ => []) rfl rfl (by decide) (by decide) (by decide) (by decide)

end WCLSTM
